import Mathlib

set_option autoImplicit false

namespace LIDRTB

/-!
Shallow embedding of the LIDR-TB conversational question-answering pipeline
(`src/model.py`, `src/split_query.py`, `src/extract_entity.py`, `src/TB_kg.py`,
`src/config.py`).

Text is modelled as a list of Unicode code points (`List Nat`).  The embedding
covers the code-point range on which the Python call `unicodedata.normalize("NFKC", s)`
acts as the identity and `str.lower()` is the ASCII case map — in particular all
of ASCII, which includes every string literal appearing in the source and every
input used in the concrete theorems below.
-/

abbrev Text := List Nat

def strCodes (s : String) : Text := s.data.map Char.toNat

/-- Python whitespace for `str.strip()` / regex `\s` on the ASCII fragment:
space, tab, newline, vertical tab, form feed, carriage return. -/
def isWS (c : Nat) : Bool :=
  decide (c = 32 ∨ c = 9 ∨ c = 10 ∨ c = 11 ∨ c = 12 ∨ c = 13)

/-- ASCII case map of Python `str.lower()`. -/
def lowerChar (c : Nat) : Nat := if 65 ≤ c ∧ c ≤ 90 then c + 32 else c

def pyLower (s : Text) : Text := s.map lowerChar

def lstrip (s : Text) : Text := s.dropWhile isWS

def rstrip (s : Text) : Text := (s.reverse.dropWhile isWS).reverse

/-- Python `str.strip()`. -/
def pyStrip (s : Text) : Text := rstrip (lstrip s)

/-- Embedding of `re.sub(r"\s+", " ", s)`: every maximal run of whitespace
characters is replaced by a single space. -/
def collapseWS : Text → Text
  | [] => []
  | [c] => [if isWS c then 32 else c]
  | c1 :: c2 :: r =>
    if isWS c1 && isWS c2 then collapseWS (c2 :: r)
    else (if isWS c1 then 32 else c1) :: collapseWS (c2 :: r)

/-- Python `s.endswith("s")`. -/
def endsWithS (s : Text) : Bool := decide (s.getLast? = some 115)

/-- Embedding of `_normalize_text` (src/extract_entity.py lines 14-21):
NFKC (identity on the embedded fragment), `strip()`, whitespace-run collapse,
`lower()`, and removal of one trailing `"s"` when the string is longer than 3
characters. -/
def normalize_text (s : Text) : Text :=
  let u := pyLower (collapseWS (pyStrip s))
  if endsWithS u && decide (3 < u.length) then u.dropLast else u

-- ------------------------------------------------------------------
-- Normalizer lemmas (used for claim C5)
-- ------------------------------------------------------------------

def noLeadWS : Text → Bool
  | [] => true
  | c :: _ => !isWS c

def noTrailWS : Text → Bool
  | [] => true
  | [c] => !isWS c
  | _ :: c2 :: r => noTrailWS (c2 :: r)

/-- Every whitespace character in the output of `collapseWS` is a plain space. -/
def wsIs32 (s : Text) : Bool := s.all (fun c => !isWS c || decide (c = 32))

/-- No two adjacent whitespace characters. -/
def noAdjWS : Text → Bool
  | [] => true
  | [_] => true
  | c1 :: c2 :: r => !(isWS c1 && isWS c2) && noAdjWS (c2 :: r)

/-- The string produced by the strip / collapse / lower stages of
`_normalize_text`, before the trailing-"s" singularization step. -/
def normCore (s : Text) : Text := pyLower (collapseWS (pyStrip s))

-- ------------------------------------------------------------------
-- Data model
-- ------------------------------------------------------------------

/-- An entity dict as produced by `extract_entities`: keys `id` and `type`. -/
structure Entity where
  id : Text
  type : Text
deriving DecidableEq

/-- A conversation turn dict. The `save_to_history` of `split_query.py` stores
question and entities only; the one of `model.py` also stores intent and sub_intent.
Absent keys are `none`. -/
structure Turn where
  question : Text
  entities : List Entity
  intent : Option Text
  sub_intent : Option Text
deriving DecidableEq

/-- Python truthiness of an optional string: `None` and `""` are falsy. -/
def truthyOpt : Option Text → Bool
  | none => false
  | some t => decide (t ≠ [])

def prefixAt : Text → Text → Bool
  | [], _ => true
  | _ :: _, [] => false
  | a :: as, b :: bs => decide (a = b) && prefixAt as bs

/-- Python substring containment `needle in hay`. -/
def containsSub (needle hay : Text) : Bool :=
  (List.range (hay.length + 1)).any (fun i => prefixAt needle (hay.drop i))

/-- Python `str.split()`: split on whitespace runs, dropping empty pieces. -/
def splitWS : Text → List Text
  | [] => []
  | c :: t =>
    let rest := splitWS t
    if isWS c then rest
    else match t with
      | [] => [[c]]
      | c2 :: _ =>
        if isWS c2 then [c] :: rest
        else match rest with
          | [] => [[c]]
          | w :: ws => (c :: w) :: ws

def joinWith (sep : Text) : List Text → Text
  | [] => []
  | [x] => x
  | x :: y :: r => x ++ sep ++ joinWith sep (y :: r)

def lookupT {α : Type} (l : List (Text × α)) (k : Text) : Option α :=
  (l.find? (fun kv => decide (kv.1 = k))).map (fun kv => kv.2)

-- ------------------------------------------------------------------
-- config.py tables
-- ------------------------------------------------------------------

def KEYWORD_BLACKLIST : List Text :=
  [strCodes "target", strCodes "targets", strCodes "pathway", strCodes "pathways",
   strCodes "gene", strCodes "genes", strCodes "protein", strCodes "proteins",
   strCodes "mechanism", strCodes "mechanisms", strCodes "mic",
   strCodes "indication", strCodes "indications"]

def SYNONYM_MAP : List (Text × List Text) :=
  [(strCodes "indication",
    [strCodes "indication", strCodes "indications", strCodes "used for",
     strCodes "therapeutic use", strCodes "treats", strCodes "indicated for"]),
   (strCodes "ATC_code",
    [strCodes "atc", strCodes "atc code", strCodes "atc codes",
     strCodes "anatomical therapeutic chemical code"]),
   (strCodes "approval_stage",
    [strCodes "approval", strCodes "stage", strCodes "regulatory status",
     strCodes "clinical stage", strCodes "approval stage", strCodes "approval status"]),
   (strCodes "function",
    [strCodes "function", strCodes "role", strCodes "biological function",
     strCodes "activity"]),
   (strCodes "protein",
    [strCodes "protein", strCodes "protein product", strCodes "gene product"]),
   (strCodes "description",
    [strCodes "description", strCodes "summary", strCodes "overview",
     strCodes "pathway description", strCodes "pathway summary"]),
   (strCodes "gene_count",
    [strCodes "gene count", strCodes "number of genes", strCodes "genes involved",
     strCodes "members"]),
   (strCodes "pathway_class",
    [strCodes "pathway class", strCodes "type", strCodes "category",
     strCodes "pathway type"])]

-- ------------------------------------------------------------------
-- extract_entity.py
-- ------------------------------------------------------------------

/-- ASCII fragment of the regex word-character class `\w`. -/
def isWordChar (c : Nat) : Bool :=
  decide ((48 ≤ c ∧ c ≤ 57) ∨ (65 ≤ c ∧ c ≤ 90) ∨ (97 ≤ c ∧ c ≤ 122) ∨ c = 95)

def charAtIsWord (q : Text) (i : Nat) : Bool :=
  decide (i < q.length) && isWordChar (q.getD i 0)

/-- Regex `\b` holds at position `i` of `q`. -/
def wordBoundaryAt (q : Text) (i : Nat) : Bool :=
  if i = 0 then charAtIsWord q 0
  else charAtIsWord q (i - 1) != charAtIsWord q i

/-- Embedding of `_word_boundary_match` together with
`_compile_word_boundary_pattern` (src/extract_entity.py lines 24-35): search
for the word-boundary-delimited escaped candidate pattern in the normalized
query. Both arguments are
normalized (again) inside, exactly as in the source; `re.IGNORECASE` is vacuous
on the already lower-cased normalized strings. The `lru_cache` only memoizes
compilation and has no semantic effect. -/
def word_boundary_match (query candidate : Text) : Bool :=
  if decide (candidate = []) then false
  else
    let query_norm := normalize_text query
    let cand_norm := normalize_text candidate
    (List.range (query_norm.length + 1)).any (fun i =>
      wordBoundaryAt query_norm i
      && prefixAt cand_norm (query_norm.drop i)
      && wordBoundaryAt query_norm (i + cand_norm.length))

/-- Embedding of `get_last_entity_of_type` (src/extract_entity.py lines
38-44). The Python parameter default is `entity_type="Drug"`; call sites
omitting the argument therefore still search for Drug-typed entities. The
falsy empty dict `{}` is `none`. -/
def get_last_entity_of_type (entity_type : Text) (history : List Turn) :
    Option Entity :=
  history.reverse.findSome? (fun past =>
    past.entities.find? (fun e => decide (e.type = entity_type)))

/-- Python `a or b` for dict-like optional values: `{}`/`None` are falsy. -/
def pyOrOpt {α : Type} (a b : Option α) : Option α :=
  match a with
  | some x => some x
  | none => b

def pronouns : List Text :=
  [strCodes "it", strCodes "they", strCodes "this", strCodes "that",
   strCodes "these", strCodes "those", strCodes "them", strCodes "its",
   strCodes "this drug", strCodes "drug"]

def odContains (l : List (Text × Entity)) (k : Text) : Bool :=
  l.any (fun p => decide (p.1 = k))

/-- `OrderedDict` item assignment: replace in place or append. -/
def odSet (l : List (Text × Entity)) (k : Text) (v : Entity) :
    List (Text × Entity) :=
  if odContains l k then l.map (fun p => if p.1 = k then (p.1, v) else p)
  else l ++ [(k, v)]

/-- `OrderedDict.setdefault`: insert only when the key is absent. -/
def odSetdefault (l : List (Text × Entity)) (k : Text) (v : Entity) :
    List (Text × Entity) :=
  if odContains l k then l else l ++ [(k, v)]

/-- The tagger/knowledge-base candidate filter shared by stages 1 and 3 of
`extract_entities`: skip blacklisted terms, keep word-boundary matches,
assigning type "Drug" under the normalized id. -/
def candidateFold (query_norm : Text) (init : List (Text × Entity))
    (candidates : List Text) : List (Text × Entity) :=
  candidates.foldl (fun acc cand =>
    let cand_norm := normalize_text cand
    if KEYWORD_BLACKLIST.contains cand_norm then acc
    else if word_boundary_match query_norm cand_norm then
      odSet acc cand_norm ⟨cand_norm, strCodes "Drug"⟩
    else acc) init

/-- Embedding of `extract_entities` (src/extract_entity.py lines 47-116).
The external SciSpaCy tagger and the knowledge-base drug lookup are black-box
collaborators; their candidate lists are the parameters `taggerCandidates` and
`kbCandidates`. An exception in either external call is caught in the source
and leaves `candidates = []`, which coincides with passing an empty list. -/
def extract_entities (query : Text) (context_entities : List Entity)
    (use_history : Bool) (history : List Turn)
    (taggerCandidates : List Text) (kbCandidates : List Text) : List Entity :=
  let query_norm := normalize_text query
  -- stage 1: chemical/drug tagger candidates
  let stage1 := candidateFold query_norm [] taggerCandidates
  -- stage 2: context / history fallback
  let has_pronoun := (splitWS query_norm).any (fun tok => pronouns.contains tok)
  let stage2 :=
    if stage1.isEmpty && (has_pronoun || taggerCandidates.isEmpty) then
      let ctx := context_entities.foldl (fun acc e =>
        odSetdefault acc (normalize_text e.id) ⟨e.id, e.type⟩) stage1
      if ctx.isEmpty && use_history then
        -- `get_last_entity_of_type("Drug", history=history) or
        --  get_last_entity_of_type(history=history)`; the second call leaves
        -- the Python default in place, so both search for type "Drug"
        match pyOrOpt (get_last_entity_of_type (strCodes "Drug") history)
            (get_last_entity_of_type (strCodes "Drug") history) with
        | some chosen =>
          odSetdefault ctx (normalize_text chosen.id) ⟨chosen.id, chosen.type⟩
        | none => ctx
      else ctx
    else stage1
  -- stage 3: knowledge-base fallback
  let stage3 :=
    if stage2.isEmpty then candidateFold query_norm stage2 kbCandidates
    else stage2
  -- stage 4: unknown sentinel
  let stage4 :=
    if stage3.isEmpty then
      [(strCodes "__unknown_entity__",
        (⟨strCodes "unknown", strCodes "unknown"⟩ : Entity))]
    else stage3
  stage4.map (fun p => p.2)

-- ------------------------------------------------------------------
-- Conversation history (model.py and split_query.py)
-- ------------------------------------------------------------------

def MAX_HISTORY : Nat := 10

/-- `model.py` lines 15-18: the module-global `conversation_history` starts
empty, and the `if len(conversation_history) >= MAX_HISTORY:
conversation_history.pop(0)` check sits at module top level, so it runs exactly
once, at import time, on the empty list. -/
def conversation_history_init : List Turn :=
  let h : List Turn := []
  if MAX_HISTORY ≤ h.length then h.drop 1 else h

/-- Embedding of `save_to_history` from `model.py` (lines 83-89): an
unconditional append; no bound is enforced inside the function. -/
def save_to_history (h : List Turn) (question : Text) (entities : List Entity)
    (intent sub_intent : Option Text) : List Turn :=
  h ++ [⟨question, entities, intent, sub_intent⟩]

/-- Embedding of `save_to_history` from `split_query.py` (lines 11-15): an
unconditional append of question and entities. -/
def sq_save_to_history (h : List Turn) (question : Text)
    (entities : List Entity) : List Turn :=
  h ++ [⟨question, entities, none, none⟩]

-- ------------------------------------------------------------------
-- Intent classification (model.py)
-- ------------------------------------------------------------------

/-- Parsed JSON object returned by the completion service for intent
classification; `llm_call(..., expect_json=True)` returns `{}` on any
failure, i.e. both fields `none`. -/
structure LlmIntentOut where
  intent : Option Text
  sub_intent : Option Text
deriving DecidableEq

structure IntentResult where
  intent : Text
  sub_intent : Text
  entities : List Entity
  context_link : Text
deriving DecidableEq

/-- The rule scan of `detect_intent` (src/model.py lines 48-52): first
`SYNONYM_MAP` entry (insertion order) with any trigger phrase a substring of
the lower-cased question. -/
def firstSynonymKey (q : Text) : Option Text :=
  (SYNONYM_MAP.find? (fun kv => kv.2.any (fun s => containsSub s q))).map
    (fun kv => kv.1)

def default_subintent : List (Text × Text) :=
  [(strCodes "Target", strCodes "target"),
   (strCodes "Pathway", strCodes "pathway"),
   (strCodes "Drug Information", strCodes "basic_info")]

/-- Embedding of `detect_intent` (src/model.py lines 36-81). The completion
service is a black box: its parsed JSON output for the classification prompt
is the parameter `llm_res`. `history` is the module-global log of `model.py`
`conversation_history` read by `get_last_entity_of_type`. The dict-argument
coercion of lines 37-40 is outside the embedding: the query is a string. -/
def detect_intent (user_query : Text) (query_entity : List Entity)
    (history : List Turn) (llm_res : LlmIntentOut) : IntentResult :=
  let uq := pyStrip user_query
  let q := pyLower uq
  let entities := query_entity
  let main_entity : Option Entity :=
    match entities with
    | e :: _ => some e
    | [] => get_last_entity_of_type (strCodes "Drug") history
  let context_link : Text :=
    if decide (entities ≠ []) then
      joinWith (strCodes ", ") (entities.map (fun e => e.id))
    else
      match main_entity with
      | some e => e.id
      | none => []
  let sub_intent_rule : Option Text := firstSynonymKey q
  -- the completion-service call sits here in the source; `llm_res` is its
  -- parsed output
  let sub_intent_final : Option Text :=
    if truthyOpt sub_intent_rule then sub_intent_rule else llm_res.sub_intent
  let intent_final : Text :=
    if truthyOpt llm_res.intent then llm_res.intent.getD []
    else strCodes "Drug Information"
  let sub_intent_out : Text :=
    if truthyOpt sub_intent_final then sub_intent_final.getD []
    else (lookupT default_subintent intent_final).getD (strCodes "default")
  ⟨intent_final, sub_intent_out,
    (match main_entity with
     | some e => [e]
     | none => []),
    context_link⟩

-- ------------------------------------------------------------------
-- LLM-output parsing and the sentence splitter (split_query.py)
-- ------------------------------------------------------------------

def firstIdx (c : Nat) : Text → Option Nat
  | [] => none
  | a :: t => if a = c then some 0 else (firstIdx c t).map (· + 1)

def lastIdx (c : Nat) (t : Text) : Option Nat :=
  (firstIdx c t.reverse).map (fun k => t.length - 1 - k)

/-- The span matched by `re.search(r"\[.*\]", text, re.DOTALL)`: from the
first `[` to the last `]` of the whole text (greedy `.*` over any characters),
provided that `]` lies strictly after that `[`. -/
def bracketSpan (t : Text) : Option Text :=
  match firstIdx 91 t, lastIdx 93 t with
  | some i, some j => if i < j then some ((t.drop i).take (j - i + 1)) else none
  | _, _ => none

/-- Embedding of `parse_llm_json_output` (src/split_query.py lines 84-98).
The Python standard-library decoder `json.loads` is the black-box parameter
`jsonDecode`; `none` stands for a raised decode error (the `except` branch).
On a successful decode of a list of strings, elements are stripped and the
falsy (empty) ones dropped. Both failure branches return the stripped raw
response text as a single-element list. -/
def parse_llm_json_output (jsonDecode : Text → Option (List Text))
    (text : Text) : List Text :=
  match bracketSpan text with
  | none => [pyStrip text]
  | some span =>
    match jsonDecode span with
    | none => [pyStrip text]
    | some data => (data.map pyStrip).filter (fun q => decide (q ≠ []))

/-- Embedding of `split_yesno_wh_with_llm` (src/split_query.py lines 104-133):
the completion service is the black-box `llmResponse`, mapping the question
(from which the fixed prompt is rendered) to the raw text response;
the function returns the parse of that response. -/
def split_yesno_wh_with_llm (jsonDecode : Text → Option (List Text))
    (llmResponse : Text → Text) (question : Text) : List Text :=
  parse_llm_json_output jsonDecode (llmResponse question)

/-- A spaCy token as consumed by the splitter: its text, dependency relation
`dep_`, part of speech `pos_`, document index `i`, character offset `idx`, and
the document index of its head. -/
structure SToken where
  text : Text
  dep : Text
  pos : Text
  i : Nat
  idx : Nat
  headIdx : Nat
deriving DecidableEq

def conjHeadDeps : List Text := [strCodes "pobj", strCodes "dobj", strCodes "nsubj"]

def joinSpace (xs : List Text) : Text := joinWith (strCodes " ") xs

/-- Force-terminate with `?` (`if not q.endswith("?"): q += "?"`). -/
def ensureQmark (t : Text) : Text :=
  if decide (t.getLast? = some 63) then t else t ++ [63]

/-- The token loop of `split_conj_entities_correct`: find the first token in a
"conj" relation whose head fills an object/subject role and whose head text
and own text both literally match resolved entity ids; `continue` otherwise. -/
def scanConjEnt (doc : List SToken) (ids : List Text) :
    List SToken → List Text
  | [] => []
  | tok :: rest =>
    match doc.get? tok.headIdx with
    | none => scanConjEnt doc ids rest
    | some head =>
      if decide (tok.dep = strCodes "conj") && conjHeadDeps.contains head.dep then
        if !(ids.contains head.text) || !(ids.contains tok.text) then
          scanConjEnt doc ids rest
        else
          let pre := (doc.take head.i).map (fun t => t.text)
          let q1 := ensureQmark (pyStrip (joinSpace (pre ++ [head.text])))
          let q2 := ensureQmark (pyStrip (joinSpace (pre ++ [tok.text])))
          [q1, q2]
      else scanConjEnt doc ids rest

/-- Embedding of `split_conj_entities_correct` (src/split_query.py lines
20-41). The dependency parse `nlp(question)` is the token list `doc`;
`entities = none` is the Python default `entities=None`, and
`if not entities: return []` covers both `None` and `[]`. -/
def split_conj_entities_correct (question : Text) (doc : List SToken)
    (entities : Option (List Entity)) : List Text :=
  match entities with
  | none => []
  | some [] => []
  | some es =>
    let _ := question
    scanConjEnt doc (es.map (fun e => e.id)) doc

/-- The token loop of `split_conj_noun_phrase_atomic`: first "conj" token with
a NOUN head where the text of either side matches an entity id; rebuild both
branches from the shared `amod`/`compound` left-dependents of the head. The
Python `question[:start] + "X" + question[end:]` template followed by
`.replace` of the placeholder is modelled as direct splicing. -/
def scanConjNoun (question : Text) (doc : List SToken)
    (entity_texts : List Text) : List SToken → List Text
  | [] => [question]
  | tok :: rest =>
    match doc.get? tok.headIdx with
    | none => scanConjNoun question doc entity_texts rest
    | some head =>
      if decide (tok.dep = strCodes "conj") && decide (head.pos = strCodes "NOUN") then
        if !(entity_texts.contains head.text) && !(entity_texts.contains tok.text) then
          scanConjNoun question doc entity_texts rest
        else
          let lefts := doc.filter (fun t =>
            decide (t.headIdx = head.i) && decide (t.i < head.i))
          let mods := (lefts.filter (fun t =>
            decide (t.dep = strCodes "amod") || decide (t.dep = strCodes "compound"))).map
            (fun t => t.text)
          let head_phrase := joinSpace (mods ++ [head.text])
          let conj_phrase := joinSpace (mods ++ [tok.text])
          let start := head.idx
          let stop := tok.idx + tok.text.length
          [question.take start ++ head_phrase ++ question.drop stop,
           question.take start ++ conj_phrase ++ question.drop stop]
      else scanConjNoun question doc entity_texts rest

/-- Embedding of `split_conj_noun_phrase_atomic` (src/split_query.py lines
46-70); `if not entities: return [question]`. -/
def split_conj_noun_phrase_atomic (question : Text) (doc : List SToken)
    (entities : Option (List Entity)) : List Text :=
  match entities with
  | none => [question]
  | some [] => [question]
  | some es => scanConjNoun question doc (es.map (fun e => e.id)) doc

def wh_words : List Text :=
  [strCodes "which", strCodes "what", strCodes "who", strCodes "where",
   strCodes "when", strCodes "why", strCodes "how"]

def yesno_starts : List Text :=
  [strCodes "is ", strCodes "are ", strCodes "does ", strCodes "do ",
   strCodes "can ", strCodes "could ", strCodes "will ", strCodes "would "]

/-- Embedding of `is_complex_sentence` (src/split_query.py lines 75-81). -/
def is_complex_sentence (question : Text) : Bool :=
  let ql := pyLower question
  (containsSub (strCodes ", and") ql || containsSub (strCodes " and ") ql)
    && (wh_words.any (fun w => containsSub w ql)
      || yesno_starts.any (fun p => prefixAt p ql))

/-- Python `str.rstrip(c)` for a single strip character. -/
def rstripChar (c : Nat) (t : Text) : Text :=
  (t.reverse.dropWhile (fun x => decide (x = c))).reverse

/-- Embedding of `atomic_question_decomposition` (src/split_query.py lines
135-163). External collaborators as parameters: `parse` is the spaCy
dependency parser `nlp`, `tagger` and `kb` feed `extract_entities`, and
`jsonDecode` and `llmResponse` feed `split_yesno_wh_with_llm`. `history` is
the module-global `conversation_history` of `split_query.py`; the updated log is
returned alongside the result. Note that both inner split calls pass no
`entities` argument, leaving the Python default `None` in place. -/
def atomic_question_decomposition (parse : Text → List SToken)
    (tagger kb : Text → List Text)
    (jsonDecode : Text → Option (List Text)) (llmResponse : Text → Text)
    (history : List Turn) (question : Text) :
    (List Text × List Entity) × List Turn :=
  let q := rstripChar 63 (pyStrip question) ++ [63]
  -- 1. entity extraction (context_entities and use_history left at defaults)
  let entities := extract_entities q [] true history (tagger q) (kb q)
  -- 3. coordinate drug entities — called without the entities argument
  let res := split_conj_entities_correct q (parse q) none
  let atomic_questions :=
    if decide (1 < res.length) then res
    else
      -- 4. coordinate noun phrases — called without the entities argument
      let res2 := split_conj_noun_phrase_atomic q (parse q) none
      if decide (1 < res2.length) then res2
      -- 5. complex sentences -> LLM-based decomposition
      else if is_complex_sentence q then
        split_yesno_wh_with_llm jsonDecode llmResponse q
      -- 2. default: no decomposition
      else [q]
  -- 6. unified history logging
  ((atomic_questions, entities), sq_save_to_history history q entities)

-- ------------------------------------------------------------------
-- Dispatch (process_query, model.py)
-- ------------------------------------------------------------------

/-- Python list repetition `l * n`. -/
def pyListMul {α : Type} (l : List α) (n : Nat) : List α :=
  (List.range n).foldl (fun acc _ => acc ++ l) []

/-- The broadcast step of `process_query` (src/model.py lines 162-164):
`if len(query_entities) == 1: query_entities *= len(atomic_queries)`. -/
def broadcast_entities (atomic_queries : List Text)
    (query_entities : List Entity) : List Entity :=
  if decide (query_entities.length = 1) then
    pyListMul query_entities atomic_queries.length
  else query_entities

/-- The pairing `zip(atomic_queries, query_entities)` driving the per-atomic
question loop of `process_query` (src/model.py line 175), taken after the
broadcast step. -/
def dispatch_pairs (atomic_queries : List Text)
    (query_entities : List Entity) : List (Text × Entity) :=
  atomic_queries.zip (broadcast_entities atomic_queries query_entities)

inductive KBMethod
  | drugInfo
  | target
  | pathway
  | repurposing
  | sensitivity
deriving DecidableEq

/-- `intent_method_map` of `process_query` (src/model.py lines 165-171): the
five knowledge-base retrieval lambdas, identified by the store operation they
invoke. -/
def intent_method_map : List (Text × KBMethod) :=
  [(strCodes "drug information", KBMethod.drugInfo),
   (strCodes "target", KBMethod.target),
   (strCodes "pathway", KBMethod.pathway),
   (strCodes "drug repurposing assay", KBMethod.repurposing),
   (strCodes "drug sensitivity test", KBMethod.sensitivity)]

/-- The retrieval-method selection of `process_query` (src/model.py lines
184-187): intent "target" with sub-intent "pathway" reroutes to the map entry
keyed by the sub-intent; otherwise the entry keyed by the intent is used. -/
def select_search_method (intent_key sub_intent_key : Text) : Option KBMethod :=
  if decide (intent_key = strCodes "target")
      && decide (sub_intent_key = strCodes "pathway") then
    lookupT intent_method_map sub_intent_key
  else lookupT intent_method_map intent_key

/-- One record of `intent_data_list`: `fetched = none` is the pass-through
record `{"question", "intent", "sub_intent"}` appended before `continue`
(src/model.py lines 188-194) — no data is fetched for it. -/
structure DispatchOutcome (α : Type) where
  question : Text
  intent : Text
  sub_intent : Text
  fetched : Option (KBMethod × List α)
deriving DecidableEq

/-- One iteration of the dispatch loop of `process_query` (src/model.py lines
179-211), reduced to routing and fetching: the lower-cased intent and
sub-intent select the retrieval method; with no match a pass-through record is
produced, otherwise the method is applied to each entity of the intent result
(field projection and pathway post-processing are embedded separately). -/
def dispatch_one {α : Type} (kbFetch : KBMethod → Entity → List α)
    (aq : Text) (intentv sub_intentv : Text) (entities : List Entity) :
    DispatchOutcome α :=
  let intent_key := pyLower intentv
  let sub_intent_key := pyLower sub_intentv
  match select_search_method intent_key sub_intent_key with
  | none => ⟨aq, intent_key, sub_intent_key, none⟩
  | some m =>
    ⟨aq, intent_key, sub_intent_key,
      some (m, (entities.map (fun e => kbFetch m e)).flatten)⟩

-- ------------------------------------------------------------------
-- Pathway aggregation (process_pathway_results, model.py)
-- ------------------------------------------------------------------

/-- The fields of a raw pathway record read by `process_pathway_results`
(`item.get(...)` yields `None`, i.e. `none`, for a missing key; the other
record fields are never read). -/
structure PathwayRaw where
  Pathway_ID : Option Text
  pathway_name : Option Text
  pathway_class : Option Text
  Gene_name : Option Text
  Rv_id : Option Text
deriving DecidableEq

structure PathwayAgg where
  pathway_name : Option Text
  pathway_class : Option Text
  genes : List Text
deriving DecidableEq

structure PathwayOut where
  Pathway_ID : Option Text
  pathway_name : Option Text
  pathway_class : Option Text
  genes : List Text
deriving DecidableEq

/-- Python `set.add` on the genes set, modelled as a duplicate-free list in
insertion order (the contract constrains set membership only; the CPython
set iteration order is unspecified). -/
def addGene (gs : List Text) (g : Text) : List Text :=
  if decide (g ∈ gs) then gs else gs ++ [g]

def addGeneF (pid : Option Text) (g : Text) (p : Option Text × PathwayAgg) :
    Option Text × PathwayAgg :=
  if p.1 = pid then (p.1, ⟨p.2.pathway_name, p.2.pathway_class, addGene p.2.genes g⟩)
  else p

def addGeneAt (acc : List (Option Text × PathwayAgg)) (pid : Option Text)
    (g : Text) : List (Option Text × PathwayAgg) :=
  acc.map (addGeneF pid g)

/-- `if gene and gene != "/": simplified[pid]["genes"].add(gene)`: a present,
non-empty value distinct from the sentinel `"/"` is added. -/
def maybeAddGene (acc : List (Option Text × PathwayAgg)) (pid : Option Text)
    (o : Option Text) : List (Option Text × PathwayAgg) :=
  match o with
  | none => acc
  | some g =>
    if decide (g = []) || decide (g = strCodes "/") then acc
    else addGeneAt acc pid g

/-- One iteration of the `for item in raw_results` loop: ensure an entry for
the `Pathway_ID` of the record exists (first occurrence fixes name and class), then
add the `Gene_name` and `Rv_id` contributions. -/
def pathwayStep (acc : List (Option Text × PathwayAgg)) (item : PathwayRaw) :
    List (Option Text × PathwayAgg) :=
  let pid := item.Pathway_ID
  let acc1 :=
    if acc.any (fun p => decide (p.1 = pid)) then acc
    else acc ++ [(pid, ⟨item.pathway_name, item.pathway_class, []⟩)]
  let acc2 := maybeAddGene acc1 pid item.Gene_name
  maybeAddGene acc2 pid item.Rv_id

/-- Embedding of `process_pathway_results` (src/model.py lines 119-143): the
insertion-ordered `simplified` dict keyed by `Pathway_ID`, converted back to a
record list. -/
def process_pathway_results (raw_results : List PathwayRaw) : List PathwayOut :=
  (raw_results.foldl pathwayStep []).map (fun p =>
    ⟨p.1, p.2.pathway_name, p.2.pathway_class, p.2.genes⟩)

-- ------------------------------------------------------------------
-- process_query (model.py)
-- ------------------------------------------------------------------

/-- `atomic_question_decomposition` is defined with the single parameter
`question` (src/split_query.py line 135). -/
def atomic_question_decomposition_param_count : Nat := 1

/-- `process_query` calls `atomic_question_decomposition(user_query, nlp)`
with two positional arguments (src/model.py line 160). -/
def process_query_decomposition_arg_count : Nat := 2

inductive PyError
  | typeError
deriving DecidableEq

/-- Embedding of `process_query` (src/model.py lines 159-224). Python binds a
call arguments before executing the body and raises `TypeError` when two
positional arguments are passed to a one-parameter function, so the first
statement of `process_query` raises for every input. The remainder of the
body — broadcast, per-question intent detection and dispatch, final answer
from the completion service (`answerText`) — is embedded after the arity
guard; the per-iteration history writes are elided in that unreachable
branch. -/
def process_query (parse : Text → List SToken) (tagger kb : Text → List Text)
    (jsonDecode : Text → Option (List Text)) (llmResponse : Text → Text)
    (intentLlm : Text → LlmIntentOut)
    (kbFetch : KBMethod → Entity → List Text) (answerText : Text)
    (sq_history model_history : List Turn) (user_query : Text) :
    Except PyError Text :=
  if decide (process_query_decomposition_arg_count
      ≠ atomic_question_decomposition_param_count) then
    Except.error PyError.typeError
  else
    let r := atomic_question_decomposition parse tagger kb jsonDecode
      llmResponse sq_history user_query
    let atomic_queries := r.1.1
    let query_entities := broadcast_entities atomic_queries r.1.2
    let _records := (atomic_queries.zip query_entities).map (fun p =>
      let ij := detect_intent p.1 [p.2] model_history (intentLlm p.1)
      dispatch_one kbFetch p.1 ij.intent ij.sub_intent ij.entities)
    Except.ok (pyStrip answerText)

/-- A present gene/product value usable for the genes set: non-empty and
distinct from the sentinel "/" (the truthiness-and-sentinel guard of
`process_pathway_results`). -/
def geneVal (o : Option Text) (g : Text) : Prop :=
  o = some g ∧ g ≠ [] ∧ g ≠ strCodes "/"

/-- `g` is contributed to the genes set of pathway id `pid` by some record of
`l`, through its `Gene_name` or `Rv_id` field. -/
def pathwayContrib (pid : Option Text) (g : Text) (l : List PathwayRaw) : Prop :=
  ∃ item ∈ l, item.Pathway_ID = pid
    ∧ (geneVal item.Gene_name g ∨ geneVal item.Rv_id g)

/-- The invariant maintained by the `simplified` accumulator of
`process_pathway_results` over the processed prefix of the input. -/
def pathwayInv (processed : List PathwayRaw)
    (acc : List (Option Text × PathwayAgg)) : Prop :=
  (acc.map Prod.fst).Nodup
  ∧ (∀ p ∈ acc, ∀ g, g ∈ p.2.genes ↔ pathwayContrib p.1 g processed)
  ∧ (∀ item ∈ processed, ∃ p ∈ acc, p.1 = item.Pathway_ID)

-- ------------------------------------------------------------------
-- Concrete inputs used by the claim theorems
-- ------------------------------------------------------------------

/-- A dependency parse of "targets of amlodipine and acarbose?":
"acarbose" is a conjunct of "amlodipine", which fills a `pobj` role.
Token fields: text, dep, pos, i, idx, headIdx. -/
def exDoc : List SToken :=
  [⟨strCodes "targets", strCodes "ROOT", strCodes "NOUN", 0, 0, 0⟩,
   ⟨strCodes "of", strCodes "prep", strCodes "ADP", 1, 8, 0⟩,
   ⟨strCodes "amlodipine", strCodes "pobj", strCodes "NOUN", 2, 11, 1⟩,
   ⟨strCodes "and", strCodes "cc", strCodes "CCONJ", 3, 22, 2⟩,
   ⟨strCodes "acarbose", strCodes "conj", strCodes "NOUN", 4, 26, 2⟩,
   ⟨strCodes "?", strCodes "punct", strCodes "PUNCT", 5, 34, 0⟩]

def exQ : Text := strCodes "targets of amlodipine and acarbose?"

def exEnts : List Entity :=
  [⟨strCodes "amlodipine", strCodes "Drug"⟩,
   ⟨strCodes "acarbose", strCodes "Drug"⟩]

def exTagger : Text → List Text :=
  fun _ => [strCodes "amlodipine", strCodes "acarbose"]

/-- A history whose only turn carries a Target-typed entity and no Drug-typed
entity. -/
def exHist : List Turn :=
  [⟨strCodes "what inhibits inha?",
    [⟨strCodes "inha", strCodes "Target"⟩], none, none⟩]

def exMicQ : Text :=
  strCodes "What is the MIC value of ebselen against the reference strain?"

def exTellQ : Text := strCodes "tell me about amlodipine and acarbose?"

/-- The raw pathway records of the example in the claim: two records sharing
Pathway_ID "P1" with genes "geneA" and "geneB", and one with the sentinel
gene "/". -/
def exPathwayRaw : List PathwayRaw :=
  [⟨some (strCodes "P1"), some (strCodes "Glycolysis"),
    some (strCodes "Metabolism"), some (strCodes "geneA"), none⟩,
   ⟨some (strCodes "P1"), some (strCodes "Glycolysis"),
    some (strCodes "Metabolism"), some (strCodes "geneB"), none⟩,
   ⟨some (strCodes "P1"), some (strCodes "Glycolysis"),
    some (strCodes "Metabolism"), some (strCodes "/"), none⟩]

theorem noLeadWS_append {xs ys : Text} (h : xs ≠ []) :
    noLeadWS (xs ++ ys) = noLeadWS xs := by
  cases xs with
  | nil => exact absurd rfl h
  | cons c t => rfl

theorem noTrailWS_eq_noLeadWS_reverse (s : Text) :
    noTrailWS s = noLeadWS s.reverse := by
  induction s with
  | nil => rfl
  | cons c1 t ih =>
    cases t with
    | nil => rfl
    | cons c2 r =>
      rw [show noTrailWS (c1 :: c2 :: r) = noTrailWS (c2 :: r) from rfl,
        List.reverse_cons, noLeadWS_append (by simp), ih]

theorem lstrip_noLead (s : Text) : noLeadWS (lstrip s) = true := by
  induction s with
  | nil => rfl
  | cons c t ih =>
    show noLeadWS ((c :: t).dropWhile isWS) = true
    rw [List.dropWhile_cons]
    by_cases h : isWS c = true
    · simpa [h] using ih
    · simp only [h]
      simp only [noLeadWS]
      simp [Bool.eq_false_iff.mpr h]

theorem lstrip_eq_self {s : Text} (h : noLeadWS s = true) : lstrip s = s := by
  cases s with
  | nil => rfl
  | cons c t =>
    have hc : isWS c = false := by
      simpa [noLeadWS] using h
    show (c :: t).dropWhile isWS = c :: t
    rw [List.dropWhile_cons, hc]
    simp

theorem rstrip_noTrail (s : Text) : noTrailWS (rstrip s) = true := by
  rw [noTrailWS_eq_noLeadWS_reverse, rstrip, List.reverse_reverse]
  exact lstrip_noLead s.reverse

theorem rstrip_eq_self {s : Text} (h : noTrailWS s = true) : rstrip s = s := by
  rw [noTrailWS_eq_noLeadWS_reverse] at h
  have := lstrip_eq_self h
  rw [rstrip]
  rw [show s.reverse.dropWhile isWS = lstrip s.reverse from rfl, this,
    List.reverse_reverse]

theorem rstrip_decomp (s : Text) : ∃ t, s = rstrip s ++ t := by
  refine ⟨(s.reverse.takeWhile isWS).reverse, ?_⟩
  rw [rstrip, ← List.reverse_append, List.takeWhile_append_dropWhile,
    List.reverse_reverse]

theorem rstrip_noLead {s : Text} (h : noLeadWS s = true) :
    noLeadWS (rstrip s) = true := by
  obtain ⟨t, ht⟩ := rstrip_decomp s
  cases hr : rstrip s with
  | nil => rfl
  | cons c cs =>
    rw [hr] at ht
    rw [ht] at h
    simpa [noLeadWS] using h

theorem pyStrip_noLead (s : Text) : noLeadWS (pyStrip s) = true :=
  rstrip_noLead (lstrip_noLead s)

theorem pyStrip_noTrail (s : Text) : noTrailWS (pyStrip s) = true :=
  rstrip_noTrail (lstrip s)

theorem pyStrip_eq_self {s : Text} (h1 : noLeadWS s = true)
    (h2 : noTrailWS s = true) : pyStrip s = s := by
  rw [pyStrip, lstrip_eq_self h1, rstrip_eq_self h2]

theorem bool_eq_false {b : Bool} (h : ¬ b = true) : b = false := by
  cases b
  · rfl
  · exact absurd rfl h

theorem collapseWS_ne_nil (c : Nat) (t : Text) : collapseWS (c :: t) ≠ [] := by
  induction t generalizing c with
  | nil => simp [collapseWS]
  | cons c2 r ih =>
    rw [collapseWS]
    by_cases h : (isWS c && isWS c2) = true
    · simpa [h] using ih c2
    · simp [h]

theorem collapseWS_wsIs32 (s : Text) : wsIs32 (collapseWS s) = true := by
  induction s with
  | nil => rfl
  | cons c1 t ih =>
    cases t with
    | nil =>
      show wsIs32 [if isWS c1 then 32 else c1] = true
      by_cases h : isWS c1 = true
      · simp only [h, if_true]; rfl
      · simp only [wsIs32, List.all_cons, List.all_nil, Bool.and_true, h,
          if_false, Bool.or_eq_true]
        left
        simp [h]
    | cons c2 r =>
      rw [collapseWS]
      by_cases h : (isWS c1 && isWS c2) = true
      · simpa [h] using ih
      · rw [if_neg h]
        have hx : (!isWS (if isWS c1 then 32 else c1)
            || decide ((if isWS c1 then 32 else c1) = 32)) = true := by
          by_cases h1 : isWS c1 = true
          · rw [if_pos h1]
            simp
          · rw [if_neg h1]
            simp [bool_eq_false h1]
        have hstep : wsIs32 ((if isWS c1 then 32 else c1) :: collapseWS (c2 :: r))
            = ((!isWS (if isWS c1 then 32 else c1)
              || decide ((if isWS c1 then 32 else c1) = 32))
              && wsIs32 (collapseWS (c2 :: r))) := rfl
        rw [hstep, hx, ih]
        rfl

theorem collapseWS_noLead {s : Text} (h : noLeadWS s = true) :
    noLeadWS (collapseWS s) = true := by
  cases s with
  | nil => rfl
  | cons c1 t =>
    have hc : isWS c1 = false := by simpa [noLeadWS] using h
    cases t with
    | nil => simp [collapseWS, noLeadWS, hc]
    | cons c2 r => simp [collapseWS, noLeadWS, hc]

theorem collapseWS_noAdj (s : Text) : noAdjWS (collapseWS s) = true := by
  induction s with
  | nil => rfl
  | cons c1 t ih =>
    cases t with
    | nil =>
      show noAdjWS [if isWS c1 then 32 else c1] = true
      rfl
    | cons c2 r =>
      rw [collapseWS]
      by_cases h : (isWS c1 && isWS c2) = true
      · simpa [h] using ih
      · rw [if_neg h]
        cases hcol : collapseWS (c2 :: r) with
        | nil => exact absurd hcol (collapseWS_ne_nil c2 r)
        | cons y ys =>
          rw [hcol] at ih
          have hy : (isWS (if isWS c1 then 32 else c1) && isWS y) = false := by
            by_cases h1 : isWS c1 = true
            · have h2 : isWS c2 = false := by
                cases h2 : isWS c2
                · rfl
                · exact absurd (by simp [h1, h2]) h
              have hl : noLeadWS (collapseWS (c2 :: r)) = true :=
                collapseWS_noLead (by simp [noLeadWS, h2])
              rw [hcol] at hl
              have hyf : isWS y = false := by
                cases hy2 : isWS y
                · rfl
                · rw [show noLeadWS (y :: ys) = !isWS y from rfl, hy2] at hl
                  exact absurd hl (by simp)
              simp [h1, hyf]
            · rw [if_neg h1]
              simp [bool_eq_false h1]
          rw [show noAdjWS ((if isWS c1 then 32 else c1) :: y :: ys)
              = (!(isWS (if isWS c1 then 32 else c1) && isWS y)
                && noAdjWS (y :: ys)) from rfl, hy, ih]
          rfl

theorem collapseWS_eq_self {s : Text} (h1 : noAdjWS s = true)
    (h2 : wsIs32 s = true) : collapseWS s = s := by
  induction s with
  | nil => rfl
  | cons c1 t ih =>
    cases t with
    | nil =>
      simp only [wsIs32, List.all_cons, List.all_nil, Bool.and_true] at h2
      show [if isWS c1 then 32 else c1] = [c1]
      by_cases h : isWS c1 = true
      · have hc : c1 = 32 := by
          by_cases hc : c1 = 32
          · exact hc
          · rw [h] at h2
            simp [hc] at h2
        simp [h, hc]
      · simp [h]
    | cons c2 r =>
      simp only [noAdjWS, Bool.and_eq_true] at h1
      simp only [wsIs32, List.all_cons, Bool.and_eq_true] at h2
      rw [collapseWS]
      have hno : ¬ (isWS c1 && isWS c2) = true := by
        intro hcontra
        have := h1.1
        rw [hcontra] at this
        exact absurd this (by decide)
      rw [if_neg hno]
      have hws : wsIs32 (c2 :: r) = true := by
        simp only [wsIs32, List.all_cons, Bool.and_eq_true]
        exact ⟨h2.2.1, h2.2.2⟩
      have hrest : collapseWS (c2 :: r) = c2 :: r := ih h1.2 hws
      rw [hrest]
      by_cases h : isWS c1 = true
      · have hc : c1 = 32 := by
          by_cases hc : c1 = 32
          · exact hc
          · have h21 := h2.1
            rw [h] at h21
            simp [hc] at h21
        simp [h, hc]
      · simp [h]

theorem collapseWS_idem (s : Text) :
    collapseWS (collapseWS s) = collapseWS s :=
  collapseWS_eq_self (collapseWS_noAdj s) (collapseWS_wsIs32 s)

theorem lowerChar_idem (c : Nat) : lowerChar (lowerChar c) = lowerChar c := by
  unfold lowerChar
  split_ifs <;> omega

theorem isWS_lowerChar (c : Nat) : isWS (lowerChar c) = isWS c := by
  unfold lowerChar isWS
  split_ifs with h
  · have : ¬ (c + 32 = 32 ∨ c + 32 = 9 ∨ c + 32 = 10 ∨ c + 32 = 11
        ∨ c + 32 = 12 ∨ c + 32 = 13) := by omega
    have hc : ¬ (c = 32 ∨ c = 9 ∨ c = 10 ∨ c = 11 ∨ c = 12 ∨ c = 13) := by omega
    rw [decide_eq_false this, decide_eq_false hc]
  · rfl

theorem pyLower_idem (s : Text) : pyLower (pyLower s) = pyLower s := by
  simp only [pyLower, List.map_map]
  exact List.map_congr_left (fun c _ => lowerChar_idem c)

theorem lstrip_pyLower (s : Text) : lstrip (pyLower s) = pyLower (lstrip s) := by
  induction s with
  | nil => rfl
  | cons c t ih =>
    show (lowerChar c :: pyLower t).dropWhile isWS
      = pyLower ((c :: t).dropWhile isWS)
    rw [List.dropWhile_cons, List.dropWhile_cons, isWS_lowerChar]
    by_cases h : isWS c = true
    · rw [if_pos h, if_pos h]
      exact ih
    · rw [if_neg h, if_neg h]
      rfl

theorem reverse_pyLower (s : Text) : (pyLower s).reverse = pyLower s.reverse := by
  simp [pyLower, List.map_reverse]

theorem rstrip_pyLower (s : Text) : rstrip (pyLower s) = pyLower (rstrip s) := by
  rw [rstrip, rstrip, reverse_pyLower]
  rw [show (pyLower s.reverse).dropWhile isWS = lstrip (pyLower s.reverse) from rfl,
    lstrip_pyLower, ← reverse_pyLower]
  rfl

theorem pyStrip_pyLower (s : Text) : pyStrip (pyLower s) = pyLower (pyStrip s) := by
  rw [pyStrip, pyStrip, lstrip_pyLower, rstrip_pyLower]

theorem collapseWS_pyLower (s : Text) :
    collapseWS (pyLower s) = pyLower (collapseWS s) := by
  induction s with
  | nil => rfl
  | cons c1 t ih =>
    cases t with
    | nil =>
      show collapseWS [lowerChar c1] = pyLower [if isWS c1 then 32 else c1]
      rw [collapseWS]
      by_cases h : isWS c1 = true
      · rw [if_pos (by rw [isWS_lowerChar]; exact h), if_pos h]
        rfl
      · rw [if_neg (by rw [isWS_lowerChar]; exact h), if_neg h]
        rfl
    | cons c2 r =>
      show collapseWS (lowerChar c1 :: lowerChar c2 :: pyLower r)
        = pyLower (collapseWS (c1 :: c2 :: r))
      rw [collapseWS, collapseWS, isWS_lowerChar, isWS_lowerChar]
      by_cases h : (isWS c1 && isWS c2) = true
      · rw [if_pos h, if_pos h]
        exact ih
      · rw [if_neg h, if_neg h]
        show (if isWS c1 then 32 else lowerChar c1) :: collapseWS (lowerChar c2 :: pyLower r)
          = lowerChar (if isWS c1 then 32 else c1) :: pyLower (collapseWS (c2 :: r))
        have harg : (if isWS c1 then (32 : Nat) else lowerChar c1)
            = lowerChar (if isWS c1 then 32 else c1) := by
          by_cases h1 : isWS c1 = true
          · rw [if_pos h1, if_pos h1]
            rfl
          · rw [if_neg h1, if_neg h1]
        rw [harg]
        have hrec : collapseWS (lowerChar c2 :: pyLower r)
            = pyLower (collapseWS (c2 :: r)) := ih
        rw [hrec]

theorem noLeadWS_pyLower (s : Text) : noLeadWS (pyLower s) = noLeadWS s := by
  cases s with
  | nil => rfl
  | cons c t =>
    show (!isWS (lowerChar c)) = !isWS c
    rw [isWS_lowerChar]

theorem noTrailWS_pyLower (s : Text) : noTrailWS (pyLower s) = noTrailWS s := by
  rw [noTrailWS_eq_noLeadWS_reverse, noTrailWS_eq_noLeadWS_reverse,
    reverse_pyLower, noLeadWS_pyLower]

theorem noAdjWS_pyLower (s : Text) : noAdjWS (pyLower s) = noAdjWS s := by
  induction s with
  | nil => rfl
  | cons c1 t ih =>
    cases t with
    | nil => rfl
    | cons c2 r =>
      show (!(isWS (lowerChar c1) && isWS (lowerChar c2))
          && noAdjWS (lowerChar c2 :: pyLower r))
        = (!(isWS c1 && isWS c2) && noAdjWS (c2 :: r))
      rw [isWS_lowerChar, isWS_lowerChar]
      rw [show (lowerChar c2 :: pyLower r) = pyLower (c2 :: r) from rfl, ih]

theorem wsIs32_pyLower {s : Text} (h : wsIs32 s = true) :
    wsIs32 (pyLower s) = true := by
  induction s with
  | nil => rfl
  | cons c t ih =>
    simp only [wsIs32, pyLower, List.map_cons, List.all_cons, Bool.and_eq_true] at h ⊢
    refine ⟨?_, ih (by simp only [wsIs32]; exact h.2)⟩
    rcases Bool.or_eq_true_iff.mp h.1 with h' | h'
    · rw [isWS_lowerChar]
      simp [h']
    · have hc : c = 32 := of_decide_eq_true h'
      subst hc
      simp [lowerChar]

-- dropLast preserves the relevant invariants (Python `s[:-1]`)

theorem noLeadWS_dropLast {s : Text} (h : noLeadWS s = true) :
    noLeadWS s.dropLast = true := by
  cases s with
  | nil => rfl
  | cons c1 t =>
    cases t with
    | nil => rfl
    | cons c2 r =>
      rw [show (c1 :: c2 :: r).dropLast = c1 :: (c2 :: r).dropLast from rfl]
      simpa [noLeadWS] using h

theorem noAdjWS_dropLast {s : Text} (h : noAdjWS s = true) :
    noAdjWS s.dropLast = true := by
  induction s with
  | nil => rfl
  | cons c1 t ih =>
    cases t with
    | nil => rfl
    | cons c2 r =>
      rw [show (c1 :: c2 :: r).dropLast = c1 :: (c2 :: r).dropLast from rfl]
      simp only [noAdjWS, Bool.and_eq_true] at h
      cases hr : (c2 :: r).dropLast with
      | nil => rfl
      | cons y ys =>
        have hy : y = c2 := by
          cases r with
          | nil => simp at hr
          | cons c3 rr =>
            rw [show (c2 :: c3 :: rr).dropLast = c2 :: (c3 :: rr).dropLast from rfl]
              at hr
            exact (List.cons_eq_cons.mp hr).1.symm
        subst hy
        have htail := ih h.2
        rw [hr] at htail
        rw [show noAdjWS (c1 :: y :: ys) = (!(isWS c1 && isWS y) && noAdjWS (y :: ys))
          from rfl]
        rw [htail, h.1]
        rfl

theorem wsIs32_dropLast {s : Text} (h : wsIs32 s = true) :
    wsIs32 s.dropLast = true := by
  have hsub : s.dropLast.Sublist s := List.dropLast_sublist s
  simp only [wsIs32, List.all_eq_true] at h ⊢
  exact fun c hc => h c (hsub.mem hc)

theorem pyLower_dropLast (s : Text) : pyLower s.dropLast = (pyLower s).dropLast := by
  induction s with
  | nil => rfl
  | cons c t ih =>
    cases t with
    | nil => rfl
    | cons c2 r =>
      show lowerChar c :: pyLower ((c2 :: r).dropLast)
        = (lowerChar c :: pyLower (c2 :: r)).dropLast
      rw [show (lowerChar c :: pyLower (c2 :: r)).dropLast
          = lowerChar c :: (pyLower (c2 :: r)).dropLast from rfl, ih]

theorem collapseWS_noTrail {s : Text} (h : noTrailWS s = true) :
    noTrailWS (collapseWS s) = true := by
  induction s with
  | nil => rfl
  | cons c1 t ih =>
    cases t with
    | nil =>
      have hc : isWS c1 = false := by simpa [noTrailWS] using h
      simp [collapseWS, noTrailWS, hc]
    | cons c2 r =>
      have h' : noTrailWS (c2 :: r) = true := h
      have ihr := ih h'
      rw [collapseWS]
      by_cases hb : (isWS c1 && isWS c2) = true
      · simpa [hb] using ihr
      · simp only [hb, if_false]
        cases hcol : collapseWS (c2 :: r) with
        | nil => exact absurd hcol (collapseWS_ne_nil c2 r)
        | cons y ys =>
          rw [hcol] at ihr
          exact ihr

theorem normalize_text_eq (s : Text) :
    normalize_text s
      = if endsWithS (normCore s) && decide (3 < (normCore s).length)
        then (normCore s).dropLast else normCore s := rfl

theorem normCore_noLead (s : Text) : noLeadWS (normCore s) = true := by
  rw [normCore, noLeadWS_pyLower]
  exact collapseWS_noLead (pyStrip_noLead s)

theorem normCore_noTrail (s : Text) : noTrailWS (normCore s) = true := by
  rw [normCore, noTrailWS_pyLower]
  exact collapseWS_noTrail (pyStrip_noTrail s)

theorem normCore_noAdj (s : Text) : noAdjWS (normCore s) = true := by
  rw [normCore, noAdjWS_pyLower]
  exact collapseWS_noAdj _

theorem normCore_wsIs32 (s : Text) : wsIs32 (normCore s) = true := by
  rw [normCore]
  exact wsIs32_pyLower (collapseWS_wsIs32 _)

theorem normCore_lower_fixed (s : Text) : pyLower (normCore s) = normCore s :=
  pyLower_idem _

theorem normalize_text_of_fixed {t : Text} (hs : pyStrip t = t)
    (hc : collapseWS t = t) (hl : pyLower t = t)
    (hfire : (endsWithS t && decide (3 < t.length)) = false) :
    normalize_text t = t := by
  rw [normalize_text_eq, normCore, hs, hc, hl, hfire]
  simp

/-- C5 counterexample: the normalizer is not idempotent for every string.
For the input "abcss", one application strips a single trailing "s" giving
"abcs", and a second application strips again giving "abc", so
`normalize(normalize(s)) ≠ normalize(s)`. -/
theorem C5_counterexample :
    normalize_text (strCodes "abcss") = strCodes "abcs"
    ∧ normalize_text (normalize_text (strCodes "abcss")) = strCodes "abc"
    ∧ ¬ normalize_text (normalize_text (strCodes "abcss"))
        = normalize_text (strCodes "abcss") := by decide

/-- C5 (amended): `_normalize_text` (Unicode normalization, trimming,
whitespace collapsing, lower-casing, single trailing-"s" strip) is idempotent
on every string whose normalized form neither ends in a whitespace character
nor still ends in "s" while longer than 3 characters — that is, whenever the
single trailing-"s" strip cannot fire a second time. -/
theorem C5_normalize_idempotent_unless_strip_refires (s : Text)
    (h1 : noTrailWS (normalize_text s) = true)
    (h2 : (endsWithS (normalize_text s)
      && decide (3 < (normalize_text s).length)) = false) :
    normalize_text (normalize_text s) = normalize_text s := by
  have hchain : pyStrip (normalize_text s) = normalize_text s
      ∧ collapseWS (normalize_text s) = normalize_text s
      ∧ pyLower (normalize_text s) = normalize_text s := by
    by_cases hf : (endsWithS (normCore s) && decide (3 < (normCore s).length)) = true
    · have ht : normalize_text s = (normCore s).dropLast := by
        rw [normalize_text_eq, if_pos hf]
      refine ⟨?_, ?_, ?_⟩
      · rw [ht]
        exact pyStrip_eq_self (noLeadWS_dropLast (normCore_noLead s))
          (by rw [← ht]; exact h1)
      · rw [ht]
        exact collapseWS_eq_self (noAdjWS_dropLast (normCore_noAdj s))
          (wsIs32_dropLast (normCore_wsIs32 s))
      · rw [ht, pyLower_dropLast, normCore_lower_fixed]
    · have ht : normalize_text s = normCore s := by
        rw [normalize_text_eq, if_neg hf]
      refine ⟨?_, ?_, ?_⟩
      · rw [ht]
        exact pyStrip_eq_self (normCore_noLead s) (normCore_noTrail s)
      · rw [ht, normCore, collapseWS_pyLower, collapseWS_idem]
      · rw [ht]
        exact normCore_lower_fixed s
  exact normalize_text_of_fixed hchain.1 hchain.2.1 hchain.2.2 h2

/-- C5 witness: concrete instantiation of the amended idempotence theorem at
the input "drugs" (which normalizes to "drug"). -/
theorem C5_witness :
    noTrailWS (normalize_text (strCodes "drugs")) = true
    ∧ (endsWithS (normalize_text (strCodes "drugs"))
      && decide (3 < (normalize_text (strCodes "drugs")).length)) = false
    ∧ normalize_text (normalize_text (strCodes "drugs"))
      = normalize_text (strCodes "drugs") :=
  ⟨by decide, by decide,
    C5_normalize_idempotent_unless_strip_refires (strCodes "drugs")
      (by decide) (by decide)⟩

-- ------------------------------------------------------------------
-- Claim theorems
-- ------------------------------------------------------------------

/-- C1: contrary to the claim that `answer(question)`, implemented by
`process_query`, returns an answer string for every input question without
surfacing an internal exception, `process_query` raises a `TypeError` for
every input: it calls `atomic_question_decomposition(user_query, nlp)` with
two positional arguments while that function is defined with the single
parameter `question`, so argument binding fails before any pipeline work and
no call ever produces an answer string. -/
theorem C1_process_query_always_raises (parse : Text → List SToken)
    (tagger kb : Text → List Text) (jsonDecode : Text → Option (List Text))
    (llmResponse : Text → Text) (intentLlm : Text → LlmIntentOut)
    (kbFetch : KBMethod → Entity → List Text) (answerText : Text)
    (sq_history model_history : List Turn) (user_query : Text) :
    process_query parse tagger kb jsonDecode llmResponse intentLlm kbFetch
      answerText sq_history model_history user_query
      = Except.error PyError.typeError := rfl

/-- C2: contrary to the claim, `atomic_question_decomposition` never selects
the coordinate-entity split: it calls `split_conj_entities_correct(question,
nlp)` without the `entities` argument, so the Python default `None` makes that
strategy return `[]` for every question. On the question "targets of
amlodipine and acarbose?" — whose parse has the conjunct "acarbose" under the
`pobj` head "amlodipine", both texts literally matching the two resolved
entity ids — the pipeline returns the single unsplit question, although the
split function, given the entities that were just resolved, would produce
exactly the two claimed fragments. -/
theorem C2_conj_entity_split_never_fires :
    (∀ (question : Text) (doc : List SToken),
      split_conj_entities_correct question doc none = [])
    ∧ (atomic_question_decomposition (fun _ => exDoc) exTagger (fun _ => [])
        (fun _ => none) (fun _ => []) [] exQ).1 = ([exQ], exEnts)
    ∧ split_conj_entities_correct exQ exDoc (some exEnts)
      = [strCodes "targets of amlodipine?", strCodes "targets of acarbose?"] :=
  ⟨fun _ _ => rfl, by decide, by decide⟩

/-- C3: contrary to the claim, the conversation history log is NOT bounded:
`save_to_history` appends unconditionally, and the `MAX_HISTORY` eviction
check of `model.py` sits at module top level, running exactly once at import
time on the empty list. After appending `MAX_HISTORY + 1 = 11` turns to the
freshly initialized log, the length is 11 (not 10) and the earliest-appended
turn is still present at the front; the log of `split_query.py` grows without
bound in the same way. -/
theorem C3_history_not_bounded :
    (let final := (List.range (MAX_HISTORY + 1)).foldl
      (fun h i => save_to_history h [i] [] none none) conversation_history_init
    final.length = MAX_HISTORY + 1
      ∧ final.head? = some ⟨[0], [], none, none⟩)
    ∧ (∀ (h : List Turn) (q : Text) (es : List Entity) (i si : Option Text),
      (save_to_history h q es i si).length = h.length + 1)
    ∧ (∀ (h : List Turn) (q : Text) (es : List Entity),
      (sq_save_to_history h q es).length = h.length + 1) :=
  ⟨by decide, fun h _ _ _ _ => by simp [save_to_history],
    fun h _ _ => by simp [sq_save_to_history]⟩

/-- C7: contrary to the claim, the history fallback of `extract_entities`
never returns an entity of a non-Drug type: the second call
`get_last_entity_of_type(history=history)` leaves the Python parameter default
`entity_type="Drug"` in place, so it repeats the first call instead of
accepting any type. For the pronoun query "is it effective?" with a history
whose only entity is Target-typed, the resolver falls through to the
knowledge-base stage and ends at the unknown sentinel instead of returning
that entity. -/
theorem C7_history_fallback_drug_only :
    get_last_entity_of_type (strCodes "Drug") exHist = none
    ∧ get_last_entity_of_type (strCodes "Target") exHist
      = some ⟨strCodes "inha", strCodes "Target"⟩
    ∧ extract_entities (strCodes "is it effective?") [] true exHist [] []
      = [⟨strCodes "unknown", strCodes "unknown"⟩]
    ∧ ¬ extract_entities (strCodes "is it effective?") [] true exHist [] []
      = [⟨strCodes "inha", strCodes "Target"⟩] := by decide

/-- C4 counterexample: the question "What is the MIC value of ebselen against
the reference strain?" contains both "MIC" and "reference strain", yet when
the completion service returns intent "Target", `detect_intent` returns intent
"Target" — not "Drug Sensitivity Test". No rule short-circuits the intent:
the synonym table only feeds the sub-intent, and the intent is taken from the
completion output (the MIC rule exists only inside the LLM system prompt). -/
theorem C4_counterexample :
    containsSub (strCodes "mic") (pyLower exMicQ) = true
    ∧ containsSub (strCodes "reference strain") (pyLower exMicQ) = true
    ∧ (detect_intent exMicQ [⟨strCodes "ebselen", strCodes "Drug"⟩] []
        ⟨some (strCodes "Target"), none⟩).intent = strCodes "Target"
    ∧ ¬ (detect_intent exMicQ [⟨strCodes "ebselen", strCodes "Drug"⟩] []
        ⟨some (strCodes "Target"), none⟩).intent
        = strCodes "Drug Sensitivity Test" := by decide

/-- C4 (amended): the rule-based synonym scan runs before the completion call
and takes priority only for the SUB-intent: when the synonym table matches,
the returned sub_intent is the matched key regardless of the completion
output. The returned intent is always the intent of the completion service when
that is non-empty and the default "Drug Information" otherwise; no rule forces
intent "Drug Sensitivity Test" for MIC/reference-strain questions. -/
theorem C4_rule_priority_subintent_only (user_query : Text)
    (query_entity : List Entity) (history : List Turn) (llm_res : LlmIntentOut) :
    (truthyOpt llm_res.intent = true →
      (detect_intent user_query query_entity history llm_res).intent
        = llm_res.intent.getD [])
    ∧ (truthyOpt llm_res.intent = false →
      (detect_intent user_query query_entity history llm_res).intent
        = strCodes "Drug Information")
    ∧ (∀ k, firstSynonymKey (pyLower (pyStrip user_query)) = some k →
      (detect_intent user_query query_entity history llm_res).sub_intent = k) := by
  refine ⟨fun h => ?_, fun h => ?_, fun k hk => ?_⟩
  · simp [detect_intent, h]
  · simp [detect_intent, h]
  · have hkne : k ≠ [] := by
      obtain ⟨kv, hfind, hfst⟩ := Option.map_eq_some'.mp hk
      have hmem := List.mem_of_find?_eq_some hfind
      have hall : ∀ kv ∈ SYNONYM_MAP, kv.1 ≠ [] := by decide
      rw [← hfst]
      exact hall kv hmem
    simp [detect_intent, hk, truthyOpt, hkne]

/-- C4 witness: for "What is the ATC code of ebselen?" with the completion
service returning intent "Pathway", the amended theorem gives intent "Pathway"
and the rule-matched sub-intent "ATC_code". -/
theorem C4_witness :
    (detect_intent (strCodes "What is the ATC code of ebselen?") [] []
      ⟨some (strCodes "Pathway"), none⟩).intent = strCodes "Pathway"
    ∧ (detect_intent (strCodes "What is the ATC code of ebselen?") [] []
      ⟨some (strCodes "Pathway"), none⟩).sub_intent = strCodes "ATC_code" :=
  ⟨(C4_rule_priority_subintent_only _ _ _ _).1 (by decide),
   (C4_rule_priority_subintent_only _ _ _ _).2.2 (strCodes "ATC_code") (by decide)⟩

/-- C6 counterexample: when the completion response for the LLM-based split
has no bracketed span, the split returns the stripped RESPONSE text as the
single-element list — not the original question. -/
theorem C6_counterexample :
    split_yesno_wh_with_llm (fun _ => none)
      (fun _ => strCodes " I cannot split that. ")
      (strCodes "Are there repositioning studies of bromfenac, and what repurposing methods were used?")
      = [strCodes "I cannot split that."]
    ∧ ¬ split_yesno_wh_with_llm (fun _ => none)
      (fun _ => strCodes " I cannot split that. ")
      (strCodes "Are there repositioning studies of bromfenac, and what repurposing methods were used?")
      = [strCodes "Are there repositioning studies of bromfenac, and what repurposing methods were used?"] := by
  decide

/-- C6 (amended): on parse failure — no bracketed `[...]` span located in the
completion response, or the located span failing to JSON-decode — the split
returns the entire stripped completion response (not the original question)
as a single-element list. -/
theorem C6_parse_failure_returns_stripped_response
    (jsonDecode : Text → Option (List Text)) (llmResponse : Text → Text)
    (question : Text)
    (h : bracketSpan (llmResponse question) = none
      ∨ ∃ span, bracketSpan (llmResponse question) = some span
          ∧ jsonDecode span = none) :
    split_yesno_wh_with_llm jsonDecode llmResponse question
      = [pyStrip (llmResponse question)] := by
  rcases h with h | ⟨span, h1, h2⟩
  · simp [split_yesno_wh_with_llm, parse_llm_json_output, h]
  · simp [split_yesno_wh_with_llm, parse_llm_json_output, h1, h2]

/-- C6 witness: concrete no-bracket completion response. -/
theorem C6_witness :
    split_yesno_wh_with_llm (fun _ => none) (fun _ => strCodes " no json here ")
      (strCodes "Is it safe, and what is the dose?")
      = [strCodes "no json here"] :=
  (C6_parse_failure_returns_stripped_response (fun _ => none)
    (fun _ => strCodes " no json here ") (strCodes "Is it safe, and what is the dose?")
    (Or.inl (by decide))).trans (by decide)

/-- C8 counterexample: for "tell me about amlodipine and acarbose?" — not a
complex sentence, so no strategy splits it — decomposition yields ONE atomic
question but TWO resolved entities; the broadcast applies only to a
single-entity list, so the counts do not match, and `zip` silently drops the
second entity ("acarbose") before dispatch. -/
theorem C8_counterexample :
    (let r := atomic_question_decomposition (fun _ => []) exTagger (fun _ => [])
      (fun _ => none) (fun _ => []) [] exTellQ
    r.1.1.length = 1 ∧ r.1.2.length = 2
      ∧ broadcast_entities r.1.1 r.1.2 = r.1.2
      ∧ (dispatch_pairs r.1.1 r.1.2).map Prod.snd
        = [⟨strCodes "amlodipine", strCodes "Drug"⟩]
      ∧ ¬ (broadcast_entities r.1.1 r.1.2).length = r.1.1.length
      ∧ ⟨strCodes "acarbose", strCodes "Drug"⟩ ∈ r.1.2
      ∧ ¬ ⟨strCodes "acarbose", strCodes "Drug"⟩
          ∈ (dispatch_pairs r.1.1 r.1.2).map Prod.snd) := by decide

theorem pyListMul_singleton {α : Type} (a : α) (n : Nat) :
    pyListMul [a] n = List.replicate n a := by
  induction n with
  | zero => rfl
  | succ n ih =>
    rw [pyListMul, List.range_succ, List.foldl_append]
    rw [show (List.range n).foldl (fun acc _ => acc ++ [a]) [] = pyListMul [a] n
      from rfl, ih]
    rw [show List.foldl (fun acc _ => acc ++ [a]) (List.replicate n a) [n]
        = List.replicate n a ++ [a] from rfl]
    rw [← List.replicate_succ']

theorem zip_replicate_length {α β : Type} (l : List α) (b : β) :
    l.zip (List.replicate l.length b) = l.map (fun a => (a, b)) := by
  induction l with
  | nil => rfl
  | cons x t ih => simp [List.replicate_succ, ih]

/-- C8 (amended): the broadcast equalizes the counts only when exactly one
entity is resolved — that entity is then replicated and paired 1:1
positionally with every atomic question. In every other case `zip` pairs up to
the shorter of the two lists, silently dropping surplus atomic questions or
entities. -/
theorem C8_broadcast_only_for_single_entity (atomic_queries : List Text)
    (e : Entity) (query_entities : List Entity) :
    dispatch_pairs atomic_queries [e] = atomic_queries.map (fun aq => (aq, e))
    ∧ (dispatch_pairs atomic_queries query_entities).length
      = min atomic_queries.length
        (broadcast_entities atomic_queries query_entities).length := by
  constructor
  · have hc : decide (([e] : List Entity).length = 1) = true := rfl
    have h1 : broadcast_entities atomic_queries [e]
        = pyListMul [e] atomic_queries.length := by
      rw [broadcast_entities, if_pos hc]
    rw [dispatch_pairs, h1, pyListMul_singleton]
    exact zip_replicate_length atomic_queries e
  · rw [dispatch_pairs, List.length_zip]

/-- C9: dispatch routing. Intent "target" with sub-intent "pathway" (after
lower-casing) selects the pathway retrieval operation, keyed by the
sub-intent, not the target retrieval; every other (intent, sub-intent) pair
selects by exact lower-cased intent lookup in `intent_method_map`; and an
intent with no map entry produces the pass-through record carrying only
question/intent/sub_intent with nothing fetched. -/
theorem C9_dispatch_routing :
    (select_search_method (strCodes "target") (strCodes "pathway")
        = some KBMethod.pathway
      ∧ lookupT intent_method_map (strCodes "target") = some KBMethod.target)
    ∧ (∀ ik sk : Text, ¬(ik = strCodes "target" ∧ sk = strCodes "pathway") →
        select_search_method ik sk = lookupT intent_method_map ik)
    ∧ (∀ (kbFetch : KBMethod → Entity → List Text) (aq ik sk : Text)
        (es : List Entity),
        select_search_method (pyLower ik) (pyLower sk) = none →
        dispatch_one kbFetch aq ik sk es
          = ⟨aq, pyLower ik, pyLower sk, none⟩) := by
  refine ⟨⟨by decide, by decide⟩, fun ik sk h => ?_,
    fun kbFetch aq ik sk es h => ?_⟩
  · rw [select_search_method]
    have hcond : ¬ (decide (ik = strCodes "target")
        && decide (sk = strCodes "pathway")) = true := by
      intro hb
      simp only [Bool.and_eq_true, decide_eq_true_eq] at hb
      exact h hb
    rw [if_neg hcond]
  · simp only [dispatch_one, h]

/-- C9 witness: a normal intent selects by intent lookup; an unknown intent
("greeting") produces the pass-through record with no data. -/
theorem C9_witness :
    select_search_method (strCodes "drug information") (strCodes "basic_info")
      = lookupT intent_method_map (strCodes "drug information")
    ∧ dispatch_one (fun _ _ => ([] : List Text)) (strCodes "q?")
      (strCodes "greeting") (strCodes "default") []
      = ⟨strCodes "q?", pyLower (strCodes "greeting"),
        pyLower (strCodes "default"), none⟩ :=
  ⟨C9_dispatch_routing.2.1 (strCodes "drug information") (strCodes "basic_info")
    (by decide),
   C9_dispatch_routing.2.2 (fun _ _ => []) (strCodes "q?") (strCodes "greeting")
    (strCodes "default") [] (by decide)⟩

theorem mem_addGene {gs : List Text} {g g' : Text} :
    g' ∈ addGene gs g ↔ (g' ∈ gs ∨ g' = g) := by
  unfold addGene
  split_ifs with h
  · have hg : g ∈ gs := of_decide_eq_true h
    constructor
    · exact fun h' => Or.inl h'
    · rintro (h' | rfl)
      · exact h'
      · exact hg
  · simp [List.mem_append]

theorem maybeAddGene_keys (acc : List (Option Text × PathwayAgg))
    (pid : Option Text) (o : Option Text) :
    (maybeAddGene acc pid o).map Prod.fst = acc.map Prod.fst := by
  cases o with
  | none => rfl
  | some g =>
    rw [show maybeAddGene acc pid (some g)
      = if (decide (g = []) || decide (g = strCodes "/")) = true then acc
        else addGeneAt acc pid g from rfl]
    split_ifs with h
    · rfl
    · unfold addGeneAt
      rw [List.map_map]
      apply List.map_congr_left
      intro p _
      show (addGeneF pid g p).1 = p.1
      unfold addGeneF
      split_ifs <;> rfl

theorem mem_maybeAddGene {acc : List (Option Text × PathwayAgg)}
    {pid : Option Text} {o : Option Text} {q : Option Text × PathwayAgg}
    (hq : q ∈ maybeAddGene acc pid o) :
    ∃ p ∈ acc, q.1 = p.1
      ∧ ∀ g, g ∈ q.2.genes ↔ (g ∈ p.2.genes ∨ (p.1 = pid ∧ geneVal o g)) := by
  cases o with
  | none =>
    refine ⟨q, hq, rfl, fun g => ?_⟩
    simp [geneVal]
  | some v =>
    rw [show maybeAddGene acc pid (some v)
      = if (decide (v = []) || decide (v = strCodes "/")) = true then acc
        else addGeneAt acc pid v from rfl] at hq
    by_cases hv : (decide (v = []) || decide (v = strCodes "/")) = true
    · rw [if_pos hv] at hq
      refine ⟨q, hq, rfl, fun g => ?_⟩
      simp only [Bool.or_eq_true, decide_eq_true_eq] at hv
      constructor
      · exact fun h => Or.inl h
      · rintro (h | ⟨_, hgv⟩)
        · exact h
        · rcases hgv with ⟨heq, hne, hslash⟩
          have hvg : v = g := by injection heq
          subst hvg
          rcases hv with hv | hv
          · exact absurd hv hne
          · exact absurd hv hslash
    · rw [if_neg hv] at hq
      unfold addGeneAt at hq
      rcases List.mem_map.mp hq with ⟨p, hp, hfp⟩
      have hvne : v ≠ [] ∧ v ≠ strCodes "/" := by
        constructor
        · intro hc
          exact hv (by simp [hc])
        · intro hc
          exact hv (by simp [hc])
      refine ⟨p, hp, ?_, ?_⟩
      · rw [← hfp]
        unfold addGeneF
        split_ifs <;> rfl
      · intro g
        rw [← hfp]
        unfold addGeneF
        by_cases hpid : p.1 = pid
        · rw [if_pos hpid]
          show g ∈ addGene p.2.genes v ↔ _
          rw [mem_addGene]
          constructor
          · rintro (h | rfl)
            · exact Or.inl h
            · exact Or.inr ⟨hpid, rfl, hvne.1, hvne.2⟩
          · rintro (h | ⟨_, heq, _, _⟩)
            · exact Or.inl h
            · have : v = g := by injection heq
              exact Or.inr this.symm
        · rw [if_neg hpid]
          constructor
          · exact fun h => Or.inl h
          · rintro (h | ⟨hc, _⟩)
            · exact h
            · exact absurd hc hpid

theorem keys_mem_iff (acc : List (Option Text × PathwayAgg)) (k : Option Text) :
    (∃ p ∈ acc, p.1 = k) ↔ k ∈ acc.map Prod.fst := by
  rw [List.mem_map]

theorem pathwayContrib_append (pid : Option Text) (g : Text)
    (l : List PathwayRaw) (item : PathwayRaw) :
    pathwayContrib pid g (l ++ [item])
      ↔ pathwayContrib pid g l
        ∨ (item.Pathway_ID = pid
          ∧ (geneVal item.Gene_name g ∨ geneVal item.Rv_id g)) := by
  unfold pathwayContrib
  constructor
  · rintro ⟨it, hit, hpid, hgv⟩
    rcases List.mem_append.mp hit with h | h
    · exact Or.inl ⟨it, h, hpid, hgv⟩
    · have heq : it = item := by simpa using h
      subst heq
      exact Or.inr ⟨hpid, hgv⟩
  · rintro (⟨it, hit, hpid, hgv⟩ | ⟨hpid, hgv⟩)
    · exact ⟨it, List.mem_append.mpr (Or.inl hit), hpid, hgv⟩
    · exact ⟨item, List.mem_append.mpr (Or.inr (by simp)), hpid, hgv⟩


theorem pathwayStep_inv {processed : List PathwayRaw}
    {acc : List (Option Text × PathwayAgg)} (item : PathwayRaw)
    (hinv : pathwayInv processed acc) :
    pathwayInv (processed ++ [item]) (pathwayStep acc item) := by
  obtain ⟨hnd, hgen, hcov⟩ := hinv
  have hstep : pathwayStep acc item
      = maybeAddGene (maybeAddGene
          (if acc.any (fun p => decide (p.1 = item.Pathway_ID)) then acc
           else acc ++ [(item.Pathway_ID, ⟨item.pathway_name, item.pathway_class, []⟩)])
          item.Pathway_ID item.Gene_name) item.Pathway_ID item.Rv_id := rfl
  set pid := item.Pathway_ID with hpiddef
  -- properties of the entry-creation step
  have hacc1 : ∃ acc1, (if acc.any (fun p => decide (p.1 = pid)) then acc
        else acc ++ [(pid, ⟨item.pathway_name, item.pathway_class, []⟩)]) = acc1
      ∧ (acc1.map Prod.fst).Nodup
      ∧ (∀ p ∈ acc1, ∀ g, g ∈ p.2.genes ↔ pathwayContrib p.1 g processed)
      ∧ (∀ it ∈ processed, ∃ p ∈ acc1, p.1 = it.Pathway_ID)
      ∧ (∃ p ∈ acc1, p.1 = pid) := by
    by_cases hex : acc.any (fun p => decide (p.1 = pid)) = true
    · refine ⟨acc, by rw [if_pos hex], hnd, hgen, hcov, ?_⟩
      simp only [List.any_eq_true, decide_eq_true_eq] at hex
      exact hex
    · have hnotin : ∀ p ∈ acc, ¬ p.1 = pid := by
        intro p hp hc
        exact hex (List.any_eq_true.mpr ⟨p, hp, by simp [hc]⟩)
      refine ⟨acc ++ [(pid, ⟨item.pathway_name, item.pathway_class, []⟩)],
        by rw [if_neg hex], ?_, ?_, ?_, ?_⟩
      · rw [List.map_append]
        refine List.Nodup.append hnd (List.nodup_singleton pid) ?_
        intro k hk1 hk2
        rcases List.mem_map.mp hk1 with ⟨p, hp, hpk⟩
        have : k = pid := by simpa using hk2
        exact hnotin p hp (by rw [hpk, this])
      · intro p hp g
        rcases List.mem_append.mp hp with hp | hp
        · exact hgen p hp g
        · have hpeq : p = (pid, ⟨item.pathway_name, item.pathway_class, []⟩) := by
            simpa using hp
          subst hpeq
          constructor
          · intro hg
            exact absurd hg (by simp)
          · rintro ⟨it, hit, hitpid, _⟩
            rcases hcov it hit with ⟨p', hp', hk'⟩
            exact absurd (by rw [hk', hitpid]) (hnotin p' hp')
      · intro it hit
        rcases hcov it hit with ⟨p, hp, hk⟩
        exact ⟨p, List.mem_append.mpr (Or.inl hp), hk⟩
      · exact ⟨(pid, ⟨item.pathway_name, item.pathway_class, []⟩),
          List.mem_append.mpr (Or.inr (by simp)), rfl⟩
  obtain ⟨acc1, hacc1eq, h1nd, h1gen, h1cov, h1pid⟩ := hacc1
  rw [hstep, hacc1eq]
  set acc3 := maybeAddGene (maybeAddGene acc1 pid item.Gene_name) pid item.Rv_id
    with hacc3
  have hkeys : acc3.map Prod.fst = acc1.map Prod.fst := by
    rw [hacc3, maybeAddGene_keys, maybeAddGene_keys]
  refine ⟨?_, ?_, ?_⟩
  · rw [hkeys]
    exact h1nd
  · intro q hq g
    rcases mem_maybeAddGene hq with ⟨p2, hp2, hk2, hg2⟩
    rcases mem_maybeAddGene hp2 with ⟨p1, hp1, hk1, hg1⟩
    have hkq : q.1 = p1.1 := by rw [hk2, hk1]
    rw [hkq, pathwayContrib_append]
    rw [hg2 g, hg1 g, h1gen p1 hp1 g, hk1]
    constructor
    · rintro ((hc | ⟨hpe, hv⟩) | ⟨hpe, hv⟩)
      · exact Or.inl hc
      · exact Or.inr ⟨hpe.symm, Or.inl hv⟩
      · exact Or.inr ⟨hpe.symm, Or.inr hv⟩
    · rintro (hc | ⟨hpe, hv | hv⟩)
      · exact Or.inl (Or.inl hc)
      · exact Or.inl (Or.inr ⟨hpe.symm, hv⟩)
      · exact Or.inr ⟨hpe.symm, hv⟩
  · intro it hit
    rcases List.mem_append.mp hit with hit | hit
    · rcases h1cov it hit with ⟨p, hp, hk⟩
      have : it.Pathway_ID ∈ acc3.map Prod.fst := by
        rw [hkeys]
        exact (keys_mem_iff acc1 it.Pathway_ID).mp ⟨p, hp, hk⟩
      exact (keys_mem_iff acc3 it.Pathway_ID).mpr this
    · have heq : it = item := by simpa using hit
      subst heq
      have : pid ∈ acc3.map Prod.fst := by
        rw [hkeys]
        exact (keys_mem_iff acc1 pid).mp h1pid
      exact (keys_mem_iff acc3 it.Pathway_ID).mpr this

theorem pathway_foldl_inv (todo : List PathwayRaw) :
    ∀ (processed : List PathwayRaw) (acc : List (Option Text × PathwayAgg)),
    pathwayInv processed acc →
    pathwayInv (processed ++ todo) (todo.foldl pathwayStep acc) := by
  induction todo with
  | nil =>
    intro processed acc h
    simpa using h
  | cons item rest ih =>
    intro processed acc h
    rw [List.foldl_cons]
    have h2 := ih (processed ++ [item]) (pathwayStep acc item)
      (pathwayStep_inv item h)
    rw [List.append_assoc] at h2
    simpa using h2

/-- C10: pathway aggregation. For every list of raw pathway records, the
output has at most one entry per Pathway_ID (records sharing an id are merged),
every input record id is represented, and the genes field of each entry holds
exactly the gene/product identifiers (`Gene_name` and `Rv_id` values that are
present, non-empty and distinct from the sentinel "/") contributed by the
records sharing its Pathway_ID — e.g. for the example of the claim, two "P1"
records with genes "geneA"/"geneB" plus a "/" record merge into a single entry
whose genes are exactly geneA and geneB. -/
theorem C10_pathway_aggregation (raw : List PathwayRaw) :
    ((process_pathway_results raw).map (fun r => r.Pathway_ID)).Nodup
    ∧ (∀ r ∈ process_pathway_results raw, ∀ g,
        g ∈ r.genes ↔ pathwayContrib r.Pathway_ID g raw)
    ∧ (∀ item ∈ raw, ∃ r ∈ process_pathway_results raw,
        r.Pathway_ID = item.Pathway_ID)
    ∧ process_pathway_results exPathwayRaw
      = [⟨some (strCodes "P1"), some (strCodes "Glycolysis"),
          some (strCodes "Metabolism"), [strCodes "geneA", strCodes "geneB"]⟩] := by
  have h0 : pathwayInv [] [] := by
    refine ⟨by simp, ?_, ?_⟩
    · intro p hp
      exact absurd hp (by simp)
    · intro it hit
      exact absurd hit (by simp)
  have h := pathway_foldl_inv raw [] [] h0
  rw [List.nil_append] at h
  obtain ⟨h1, h2, h3⟩ := h
  unfold process_pathway_results
  refine ⟨?_, ?_, ?_, by decide⟩
  · rw [List.map_map]
    have hco : ((fun r : PathwayOut => r.Pathway_ID)
        ∘ (fun p : Option Text × PathwayAgg =>
          (⟨p.1, p.2.pathway_name, p.2.pathway_class, p.2.genes⟩ : PathwayOut)))
        = Prod.fst := by
      funext p
      rfl
    rw [hco]
    exact h1
  · intro r hr g
    rcases List.mem_map.mp hr with ⟨p, hp, hpr⟩
    rw [← hpr]
    exact h2 p hp g
  · intro item hit
    rcases h3 item hit with ⟨p, hp, hk⟩
    exact ⟨⟨p.1, p.2.pathway_name, p.2.pathway_class, p.2.genes⟩,
      List.mem_map.mpr ⟨p, hp, rfl⟩, hk⟩

end LIDRTB
